import Mathlib

/-!
Shallow embedding of the dforge sniffer core
(src/src-tauri/src/sniffer/network.rs, src/src-tauri/utils/sniffer/src/protocol.rs)
and proofs about the claims of its specification.

Rust `HashMap` values are modelled as association lists with unique keys kept
in insertion order; `insert` replaces the value of an existing key in place,
matching `HashMap::insert` observably (lookups, retained entries).
Machine integers (`u16` event ids, `u32` sequence numbers) are modelled as
`Nat`: the code only compares them for equality / order and never performs
arithmetic on them, so no wraparound is observable.
-/

namespace DForge

/-- First-match association-list lookup, modelling `HashMap::get`. -/
def lookup {α β : Type} [DecidableEq α] : List (α × β) → α → Option β
  | [], _ => none
  | (k, v) :: rest, k2 => if k = k2 then some v else lookup rest k2

/-- Modelling `HashMap::insert`: replace the value of an existing key in
place, otherwise add the binding at the end. -/
def mapInsert {α β : Type} [DecidableEq α] : List (α × β) → α → β → List (α × β)
  | [], k, v => [(k, v)]
  | (k2, v2) :: rest, k, v =>
      if k2 = k then (k, v) :: rest else (k2, v2) :: mapInsert rest k v

@[simp]
theorem lookup_nil {α β : Type} [DecidableEq α] (k : α) :
    lookup ([] : List (α × β)) k = none := rfl

@[simp]
theorem lookup_cons {α β : Type} [DecidableEq α] (k k2 : α) (v : β) (rest : List (α × β)) :
    lookup ((k, v) :: rest) k2 = if k = k2 then some v else lookup rest k2 := rfl

@[simp]
theorem lookup_mapInsert_self {α β : Type} [DecidableEq α]
    (m : List (α × β)) (k : α) (v : β) :
    lookup (mapInsert m k v) k = some v := by
  induction m with
  | nil => simp [mapInsert, lookup]
  | cons p rest ih =>
      obtain ⟨k2, v2⟩ := p
      by_cases h : k2 = k
      · simp [mapInsert, h, lookup]
      · simp [mapInsert, h, lookup, ih]

theorem lookup_mapInsert_ne {α β : Type} [DecidableEq α]
    (m : List (α × β)) (k k2 : α) (v : β) (h : k2 ≠ k) :
    lookup (mapInsert m k v) k2 = lookup m k2 := by
  induction m with
  | nil => simp [mapInsert, lookup, if_neg (Ne.symm h)]
  | cons p rest ih =>
      obtain ⟨k3, v3⟩ := p
      by_cases hk : k3 = k
      · subst hk
        simp [mapInsert, lookup, if_neg (Ne.symm h)]
      · simp [mapInsert, hk, lookup, ih]

theorem lookup_mapInsert {α β : Type} [DecidableEq α]
    (m : List (α × β)) (k k2 : α) (v : β) :
    lookup (mapInsert m k v) k2 = if k = k2 then some v else lookup m k2 := by
  by_cases h : k = k2
  · subst h; simp
  · simp [h, lookup_mapInsert_ne m k k2 v (fun hk => h hk.symm)]

/-- A key that occurs in the list is found by `lookup`. -/
theorem lookup_isSome_of_mem {α β : Type} [DecidableEq α]
    (m : List (α × β)) (k : α) (v : β) (h : (k, v) ∈ m) :
    (lookup m k).isSome = true := by
  induction m with
  | nil => cases h
  | cons p rest ih =>
      obtain ⟨k2, v2⟩ := p
      rcases List.mem_cons.mp h with h1 | h1
      · cases h1
        simp [lookup]
      · by_cases hk : k2 = k
        · simp [lookup, hk]
        · simp [lookup, hk, ih h1]

/-! ## Protocol schema catalog (src/src-tauri/utils/sniffer/src/protocol.rs) -/

abbrev FieldName := String

/-- `EventName` from protocol.rs: an enum whose only variant is the
`#[serde(other)]` fallback `Unknown`. -/
inductive EventName
  | Unknown
deriving DecidableEq, Repr

/-- `EventId` is `u16` in the source; only equality is used, so `Nat`. -/
abbrev EventId := Nat

/-- `ProtocolVarType` from protocol.rs: the closed set of type tags. -/
inductive ProtocolVarType
  | UTF
  | VarUhShort
  | VarShort
  | Short
  | Float
  | VarUhLong
  | VarLong
  | Byte
  | VarUhInt
  | Int
  | Double
  | Boolean
  | UnsignedInt
  | UnsignedShort
  | VarInt
  | UnsignedByte
  | ByteArray
  | False
  | Unknown
deriving DecidableEq, Repr

/-- `ProtocolEvent` from protocol.rs. The Rust `attributes: HashMap` is
modelled as an association list of field name and type tag. -/
structure ProtocolEvent where
  id : Option EventId
  name : EventName
  parent : Option EventName
  attributes : List (FieldName × ProtocolVarType)
deriving DecidableEq, Repr

/-- `load_protocol` from protocol.rs, after deserialization: fold the record
list into the id-indexed map, inserting only records whose `id` is present. -/
def load_protocol (protocol : List ProtocolEvent) : List (EventId × ProtocolEvent) :=
  protocol.foldl
    (fun m event =>
      match event.id with
      | some id => mapInsert m id event
      | none => m)
    []

/-- `ProtocolManager` from protocol.rs. -/
structure ProtocolManager where
  event_by_id : List (EventId × ProtocolEvent)
  event_by_class : List (EventName × EventId)

/-- `ProtocolManager::new` from protocol.rs: build the id-indexed map, then
derive the class-name-indexed map by folding over its entries. -/
def ProtocolManager.new (protocol : List ProtocolEvent) : ProtocolManager :=
  let event_by_id := load_protocol protocol
  let event_by_class :=
    event_by_id.foldl (fun m p => mapInsert m p.2.name p.1) []
  ⟨event_by_id, event_by_class⟩

/-- `ProtocolManager::get_event`. -/
def ProtocolManager.get_event (pm : ProtocolManager) (id : EventId) : Option ProtocolEvent :=
  lookup pm.event_by_id id

/-- `ProtocolManager::get_event_by_class`: look the class name up in the
class map, then chain into `get_event` (the `?` operator). -/
def ProtocolManager.get_event_by_class (pm : ProtocolManager) (class_name : EventName) :
    Option ProtocolEvent :=
  match lookup pm.event_by_class class_name with
  | none => none
  | some id => pm.get_event id

/-! ## Event dispatcher (src/src-tauri/src/sniffer/network.rs, PacketListener) -/

/-- `ListenerId` is `&'static str` in the source. -/
abbrev ListenerId := String

/-- A `Listener` is a function pointer `fn(&Packet, &Node)` in the source.
Callbacks are opaque to the dispatcher; we model each one as an opaque
token and observe dispatch as the trace of tokens invoked. -/
abbrev Listener := Nat

/-- `Subscription = (ListenerId, Listener)`. -/
abbrev Subscription := ListenerId × Listener

/-- The `subscriptions: HashMap<EventId, Vec<Subscription>>` registry. -/
abbrev Subscriptions := List (EventId × List Subscription)

/-- `PacketListener::subscribe`: `entry(event).or_default().push(pair)` —
append the pair to the event's list, creating an empty list first when the
key is absent. -/
def subscribe (subs : Subscriptions) (event : EventId) (listener_id : ListenerId)
    (listener : Listener) : Subscriptions :=
  mapInsert subs event (((lookup subs event).getD []) ++ [(listener_id, listener)])

/-- `PacketListener::unsubscribe`: `get_mut(event).map(|l| l.retain(|(id, _)| id != listener_id))`
— when the key exists, drop the entries carrying that listener id, in place;
when it does not, do nothing. -/
def unsubscribe : Subscriptions → EventId → ListenerId → Subscriptions
  | [], _, _ => []
  | (k, v) :: rest, event, listener_id =>
      if k = event then (k, v.filter (fun s => !(s.1 == listener_id))) :: rest
      else (k, v) :: unsubscribe rest event listener_id

/-- `Packet` (sniffer/parser/packet.rs, not under src/). Modelled from the
spec: a DecodedPacket is an event id plus an ordered field record; the
dispatcher only reads `packet.id`, so the record is kept opaque. -/
structure Packet where
  id : EventId
  fields : List FieldName
deriving DecidableEq, Repr

/-- `PacketListener::_notify`, observed as the trace of listener tokens
invoked: look up the packet's event id and run the listeners in list order
(`for (_, listener) in listeners { listener(packet, node) }`). -/
def notifyCalls (subs : Subscriptions) (packet : Packet) : List Listener :=
  match lookup subs packet.id with
  | some listeners => listeners.map (fun s => s.2)
  | none => []

/-- `PacketListener::has_subscriptions_for`. -/
def has_subscriptions_for (subs : Subscriptions) (event : EventId)
    (listener_id : ListenerId) : Bool :=
  (lookup subs event).elim false
    (fun listeners => listeners.any (fun s => s.1 == listener_id))

/-- `PacketListener::_has_subscriptions`. -/
def has_subscriptions (subs : Subscriptions) (event : EventId) : Bool :=
  (lookup subs event).elim false (fun listeners => !listeners.isEmpty)

/-- A registry reachable from the empty one by a sequence of `subscribe`
calls, in call order. -/
def buildSubs (ops : List (EventId × ListenerId × Listener)) : Subscriptions :=
  ops.foldl (fun s o => subscribe s o.1 o.2.1 o.2.2) []

/-! ## Pipeline driver (PacketListener::run_with_capture loop body) -/

/-- `PacketHeader` (sniffer/parser/metadata.rs, not under src/). The driver
reads the three fields `source_ip`, `seq_num` and `body`; the source ip is
an opaque identity compared for equality, the `u32` sequence number is only
ordered, the body is the payload bytes. -/
structure PacketHeader where
  source_ip : Nat
  seq_num : Nat
  body : List Nat
deriving DecidableEq, Repr

/-- `PacketMetadata` (sniffer/parser/metadata.rs, not under src/). Modelled
from the spec: the Framer's output for one complete message — event id plus
enough information to slice the message body out of the buffer. -/
structure PacketMetadata where
  id : EventId
  data : List Nat
deriving DecidableEq, Repr

/-- The error side of `PacketMetadata::from_buffer`: the driver matches
`ParseResult::Incomplete` specially and treats every other error variant as
malformed framing; the latter are collapsed into `Malformed`. -/
inductive ParseResult
  | Incomplete
  | Malformed
deriving DecidableEq, Repr

/-- The message framer signature: `PacketMetadata::from_buffer` (not under
src/) consumes the current remaining buffer bytes and either returns
metadata for one complete message or an error. The driver claims hold for
every framer, so it is a parameter of the step function. -/
abbrev Framer := List Nat → Except ParseResult PacketMetadata

/-- The field decoder signature: `PacketParser::from_metadata(..).parse(..)`
(not under src/) turns framed metadata into a decoded packet or fails. The
driver claims hold for every decoder, so it is a parameter. -/
abbrev Decoder := PacketMetadata → Option Packet

/-- The driver's per-session mutable state: the reassembly buffer
(`DataWrapper`, bytes not yet consumed) and the remembered previous header
(`last_packet_header`). -/
structure DriverState where
  buffer : List Nat
  last_packet_header : Option PacketHeader
deriving DecidableEq, Repr

/-- The reorder decision of `run_with_capture` (network.rs lines 164-171),
verbatim: with no remembered header or a different source ip the flag stays
false; for the same source ip the flag is set exactly when the remembered
sequence number is strictly below the new one. -/
def decideReorder : Option PacketHeader → PacketHeader → Bool
  | none, _ => false
  | some last, header =>
      if last.source_ip ≠ header.source_ip then false
      else if last.seq_num < header.seq_num then true
      else false

/-- Buffer content after ingesting one frame's body: `buffer.reorder(body)`
when the flag is set, `buffer.extend_from_slice(&body)` otherwise.
`DataWrapper` (sniffer/parser/wrapper.rs, not under src/) is modelled from
the spec: `reorder` inserts the new bytes ahead of the unconsumed tail,
`extend_from_slice` appends them to it. -/
def ingestBuffer (st : DriverState) (header : PacketHeader) : List Nat :=
  if decideReorder st.last_packet_header header then header.body ++ st.buffer
  else st.buffer ++ header.body

/-- What one loop iteration did, beyond the state update: whether the field
decoder ran, the decoded packet handed to `_notify` (if any), and the trace
of listener tokens `_notify` invoked. -/
structure StepTrace where
  decoderInvoked : Bool
  notified : Option Packet
  calls : List Listener
deriving DecidableEq, Repr

/-- One iteration of the `run_with_capture` capture loop (network.rs lines
164-215), from the point where the frame header has parsed: ingest the body
(reorder or append), run the framer on the remaining bytes, then
- `Incomplete`: keep the buffer, remember this frame's header;
- any other framing error: clear the buffer (the remembered header is not
  written in this branch);
- `Ok(metadata)`: clear the buffer, forget the remembered header, and only
  when the registry has a listener for `metadata.id` run the decoder; on
  decode success `_notify` the packet, on failure just drop it.
`DataWrapper::clear` (not under src/) is modelled from the spec: it
discards everything. -/
def processFrame (framer : Framer) (decode : Decoder) (subs : Subscriptions)
    (st : DriverState) (header : PacketHeader) : DriverState × StepTrace :=
  let buffer := ingestBuffer st header
  match framer buffer with
  | .error ParseResult.Incomplete =>
      (⟨buffer, some header⟩, ⟨false, none, []⟩)
  | .error ParseResult.Malformed =>
      (⟨[], st.last_packet_header⟩, ⟨false, none, []⟩)
  | .ok metadata =>
      if has_subscriptions subs metadata.id then
        match decode metadata with
        | some packet => (⟨[], none⟩, ⟨true, some packet, notifyCalls subs packet⟩)
        | none => (⟨[], none⟩, ⟨true, none, []⟩)
      else (⟨[], none⟩, ⟨false, none, []⟩)

/-! ## Dispatcher lemmas -/

/-- The listener list currently registered for an event id (empty when the
registry has no entry for it). -/
def registered (subs : Subscriptions) (event : EventId) : List Subscription :=
  (lookup subs event).getD []

theorem registered_subscribe (subs : Subscriptions) (e : EventId)
    (l : ListenerId) (f : Listener) (E : EventId) :
    registered (subscribe subs e l f) E
      = registered subs E ++ (if e = E then [(l, f)] else []) := by
  by_cases h : e = E
  · subst h
    simp [registered, subscribe, lookup_mapInsert]
  · simp [registered, subscribe, lookup_mapInsert, h]

theorem notifyCalls_eq_registered (subs : Subscriptions) (packet : Packet) :
    notifyCalls subs packet = (registered subs packet.id).map (fun s => s.2) := by
  unfold notifyCalls registered
  cases lookup subs packet.id <;> simp

theorem registered_foldl_subscribe (ops : List (EventId × ListenerId × Listener)) :
    ∀ (subs : Subscriptions) (E : EventId),
      registered (ops.foldl (fun s o => subscribe s o.1 o.2.1 o.2.2) subs) E
        = registered subs E ++ (ops.filter (fun o => o.1 == E)).map (fun o => o.2) := by
  induction ops with
  | nil => intro subs E; simp
  | cons o rest ih =>
      intro subs E
      rw [List.foldl_cons, ih, registered_subscribe, List.filter_cons]
      by_cases h : o.1 = E
      · simp [h, List.append_assoc]
      · simp [h]

theorem lookup_unsubscribe_self (subs : Subscriptions) (E : EventId) (L : ListenerId) :
    lookup (unsubscribe subs E L) E
      = (lookup subs E).map (fun ls => ls.filter (fun s => !(s.1 == L))) := by
  induction subs with
  | nil => simp [unsubscribe]
  | cons p rest ih =>
      obtain ⟨k, v⟩ := p
      by_cases h : k = E
      · subst h
        simp [unsubscribe, lookup]
      · simp [unsubscribe, lookup, h, ih]

theorem lookup_unsubscribe_ne (subs : Subscriptions) (E : EventId) (L : ListenerId)
    (F : EventId) (h : F ≠ E) :
    lookup (unsubscribe subs E L) F = lookup subs F := by
  induction subs with
  | nil => simp [unsubscribe]
  | cons p rest ih =>
      obtain ⟨k, v⟩ := p
      by_cases hk : k = E
      · subst hk
        simp [unsubscribe, lookup, Ne.symm h]
      · simp [unsubscribe, lookup, hk, ih]

theorem unsubscribe_eq_self (subs : Subscriptions) (E : EventId) (L : ListenerId)
    (h : ∀ p ∈ subs, p.1 = E → ∀ s ∈ p.2, s.1 ≠ L) :
    unsubscribe subs E L = subs := by
  induction subs with
  | nil => rfl
  | cons p rest ih =>
      obtain ⟨k, v⟩ := p
      by_cases hk : k = E
      · subst hk
        rw [unsubscribe, if_pos rfl, List.filter_eq_self.mpr]
        intro s hs
        have := h (k, v) (List.mem_cons_self _ _) rfl s hs
        simp [this]
      · rw [unsubscribe, if_neg hk, ih]
        intro p hp hpk
        exact h p (List.mem_cons_of_mem _ hp) hpk

/-! ## Catalog lemmas -/

theorem lookup_load_step (m : List (EventId × ProtocolEvent)) (event : ProtocolEvent)
    (i : EventId) :
    lookup
        (match event.id with
          | some id => mapInsert m id event
          | none => m) i
      = if (event.id == some i) = true then some event else lookup m i := by
  cases h : event.id with
  | none => simp
  | some id =>
      rw [lookup_mapInsert]
      by_cases hi : id = i
      · subst hi; simp
      · simp [hi]

theorem lookup_load_foldl (l : List ProtocolEvent) :
    ∀ (m : List (EventId × ProtocolEvent)) (i : EventId),
      lookup
          (l.foldl
            (fun m event =>
              match event.id with
              | some id => mapInsert m id event
              | none => m) m) i
        = (l.reverse.find? (fun e => e.id == some i)).or (lookup m i) := by
  induction l with
  | nil => intro m i; simp
  | cons event rest ih =>
      intro m i
      rw [List.foldl_cons, ih, List.reverse_cons, List.find?_append, lookup_load_step]
      cases hr : rest.reverse.find? (fun e => e.id == some i) with
      | some x => simp [Option.or]
      | none =>
          cases he : (event.id == some i) with
          | true => simp [List.find?, he, Option.or]
          | false => simp [List.find?, he, Option.or]

theorem get_event_eq_find (protocol : List ProtocolEvent) (i : EventId) :
    (ProtocolManager.new protocol).get_event i
      = protocol.reverse.find? (fun e => e.id == some i) := by
  show lookup (load_protocol protocol) i = _
  rw [load_protocol, lookup_load_foldl]
  cases protocol.reverse.find? (fun e => e.id == some i) <;> simp [Option.or]

theorem lookup_classfold (l : List (EventId × ProtocolEvent)) :
    ∀ (m : List (EventName × EventId)) (c : EventName) (id : EventId),
      lookup (l.foldl (fun m p => mapInsert m p.2.name p.1) m) c = some id →
      (∃ p ∈ l, p.1 = id) ∨ lookup m c = some id := by
  induction l with
  | nil => intro m c id h; exact Or.inr h
  | cons p rest ih =>
      intro m c id h
      rw [List.foldl_cons] at h
      rcases ih (mapInsert m p.2.name p.1) c id h with h1 | h1
      · obtain ⟨q, hq, hq1⟩ := h1
        exact Or.inl ⟨q, List.mem_cons_of_mem _ hq, hq1⟩
      · rw [lookup_mapInsert] at h1
        by_cases hn : p.2.name = c
        · rw [if_pos hn] at h1
          exact Or.inl ⟨p, List.mem_cons_self _ _, (Option.some_inj.mp h1)⟩
        · rw [if_neg hn] at h1
          exact Or.inr h1

theorem classfold_length_le_one (l : List (EventId × ProtocolEvent)) :
    ∀ (m : List (EventName × EventId)), m.length ≤ 1 →
      (l.foldl (fun m p => mapInsert m p.2.name p.1) m).length ≤ 1 := by
  induction l with
  | nil => intro m h; exact h
  | cons p rest ih =>
      intro m h
      rw [List.foldl_cons]
      apply ih
      match m, h with
      | [], _ => simp [mapInsert]
      | [(k, v)], _ =>
          cases k
          cases hn : p.2.name
          simp [mapInsert]

/-! ## Claim theorems -/

/-- Claim C1: the spec says reorder-merge is applied exactly when the new
frame's sequence number precedes the remembered one, and append when it is
at or after. Evaluating the driver's reorder decision (network.rs lines
164-171) at a same-source frame pair shows the code does the opposite: with
remembered sequence number 1, a new frame with sequence number 2 (which
does not precede 1) takes the reorder-merge path, while with remembered
sequence number 2 a new frame with sequence number 1 (which precedes 2)
takes the append path. -/
theorem reorder_taken_when_seq_advances :
    decideReorder (some ⟨10, 1, []⟩) ⟨10, 2, [7]⟩ = true
    ∧ ¬ (2 < 1)
    ∧ decideReorder (some ⟨10, 2, []⟩) ⟨10, 1, [7]⟩ = false
    ∧ 1 < 2 := by
  refine ⟨rfl, by decide, rfl, by decide⟩

/-- Claim C2, counterexample: after a Malformed framing outcome the
remembered previous header is not reset to none — the driver's malformed
branch (network.rs lines 184-187) only clears the buffer and leaves
`last_packet_header` untouched, so a previously remembered header survives. -/
theorem malformed_keeps_remembered_header :
    (processFrame (fun _ => Except.error ParseResult.Malformed) (fun _ => none) []
          ⟨[1, 2], some ⟨10, 5, [9]⟩⟩ ⟨10, 6, [7]⟩).1.last_packet_header
      = some ⟨10, 5, [9]⟩
    ∧ some (⟨10, 5, [9]⟩ : PacketHeader) ≠ none := by
  exact ⟨rfl, by decide⟩

/-- Claim C2, amended: for every frame processed while running, if the
message framer returns a Malformed (non-Incomplete error) outcome, then
afterwards the reassembly buffer is empty regardless of its prior contents,
and the remembered previous header is left unchanged (in particular the
current frame's header is not remembered). -/
theorem malformed_clears_buffer_keeps_header (framer : Framer) (decode : Decoder)
    (subs : Subscriptions) (st : DriverState) (header : PacketHeader)
    (h : framer (ingestBuffer st header) = Except.error ParseResult.Malformed) :
    (processFrame framer decode subs st header).1.buffer = []
    ∧ (processFrame framer decode subs st header).1.last_packet_header
        = st.last_packet_header := by
  simp [processFrame, h]

/-- Claim C2, witness: the amended theorem applied to a concrete malformed
frame. -/
theorem malformed_clears_buffer_keeps_header_witness :
    (processFrame (fun _ => Except.error ParseResult.Malformed) (fun _ => none) []
          ⟨[3], some ⟨1, 2, []⟩⟩ ⟨1, 3, [4]⟩).1.buffer = []
    ∧ (processFrame (fun _ => Except.error ParseResult.Malformed) (fun _ => none) []
          ⟨[3], some ⟨1, 2, []⟩⟩ ⟨1, 3, [4]⟩).1.last_packet_header = some ⟨1, 2, []⟩ :=
  malformed_clears_buffer_keeps_header (fun _ => Except.error ParseResult.Malformed)
    (fun _ => none) [] ⟨[3], some ⟨1, 2, []⟩⟩ ⟨1, 3, [4]⟩ rfl

/-- Claim C3: on a Ready framing outcome the field decoder runs exactly when
the registry has a listener for the framed event id; on decode success
`_notify` receives the decoded packet (and invokes that packet's listeners);
on decode failure the message is dropped; in all cases the buffer is already
cleared and the remembered header forgotten, and with zero subscribers the
decoder is never reached. -/
theorem ready_decoder_gating (framer : Framer) (decode : Decoder)
    (subs : Subscriptions) (st : DriverState) (header : PacketHeader)
    (metadata : PacketMetadata)
    (h : framer (ingestBuffer st header) = Except.ok metadata) :
    (processFrame framer decode subs st header).2.decoderInvoked
        = has_subscriptions subs metadata.id
    ∧ (processFrame framer decode subs st header).1 = ⟨[], none⟩
    ∧ (∀ packet, decode metadata = some packet →
        has_subscriptions subs metadata.id = true →
        (processFrame framer decode subs st header).2.notified = some packet
        ∧ (processFrame framer decode subs st header).2.calls = notifyCalls subs packet)
    ∧ (decode metadata = none →
        (processFrame framer decode subs st header).2.notified = none)
    ∧ (has_subscriptions subs metadata.id = false →
        (processFrame framer decode subs st header).2.decoderInvoked = false
        ∧ (processFrame framer decode subs st header).2.notified = none) := by
  simp only [processFrame, h]
  cases hs : has_subscriptions subs metadata.id with
  | true =>
      cases hd : decode metadata with
      | some packet => simp [hd]
      | none => simp [hd]
  | false => simp

/-- Claim C3, witness: a concrete Ready frame with one subscriber for its
event id; the decoder runs, succeeds and the packet is dispatched. -/
theorem ready_decoder_gating_witness :
    (processFrame (fun _ => Except.ok ⟨5, []⟩) (fun _ => some ⟨5, []⟩)
          [(5, [("a", 1)])] ⟨[], none⟩ ⟨0, 0, []⟩).2.decoderInvoked = true
    ∧ (processFrame (fun _ => Except.ok ⟨5, []⟩) (fun _ => some ⟨5, []⟩)
          [(5, [("a", 1)])] ⟨[], none⟩ ⟨0, 0, []⟩).1 = ⟨[], none⟩
    ∧ (processFrame (fun _ => Except.ok ⟨5, []⟩) (fun _ => some ⟨5, []⟩)
          [(5, [("a", 1)])] ⟨[], none⟩ ⟨0, 0, []⟩).2.notified = some ⟨5, []⟩ := by
  have h := ready_decoder_gating (fun _ => Except.ok (⟨5, []⟩ : PacketMetadata))
    (fun _ => some (⟨5, []⟩ : Packet)) [(5, [("a", 1)])] ⟨[], none⟩ ⟨0, 0, []⟩ ⟨5, []⟩ rfl
  exact ⟨h.1.trans (by decide), h.2.1, (h.2.2.1 ⟨5, []⟩ rfl (by decide)).1⟩

/-- Claim C4: for a registry built by any sequence of subscribe calls,
`_notify` invokes exactly the listeners subscribed under the packet's event
id, each exactly once, in registration order; and whenever the registry has
no entry for the packet's event id, `_notify` invokes nothing. -/
theorem notify_invokes_registered (ops : List (EventId × ListenerId × Listener))
    (packet : Packet) (subs : Subscriptions) (q : Packet) :
    notifyCalls (buildSubs ops) packet
      = (ops.filter (fun o => o.1 == packet.id)).map (fun o => o.2.2)
    ∧ (lookup subs q.id = none → notifyCalls subs q = []) := by
  constructor
  · rw [notifyCalls_eq_registered, buildSubs, registered_foldl_subscribe]
    simp [registered]
  · intro h
    simp [notifyCalls, h]

/-- Claim C4, witness: three subscriptions, two of them for event id 1; the
dispatch trace for a packet with id 1 is exactly those two listener tokens
in subscription order, and a registry without an entry invokes nothing. -/
theorem notify_invokes_registered_witness :
    notifyCalls (buildSubs [(1, "a", 10), (2, "b", 20), (1, "c", 30)]) ⟨1, []⟩ = [10, 30]
    ∧ notifyCalls ([] : Subscriptions) ⟨0, []⟩ = [] := by
  have h := notify_invokes_registered [(1, "a", 10), (2, "b", 20), (1, "c", 30)]
    ⟨1, []⟩ ([] : Subscriptions) ⟨0, []⟩
  exact ⟨h.1.trans (by decide), h.2 rfl⟩

/-- Claim C5: `unsubscribe(E, L)` filters out exactly the entries under `E`
whose listener id is `L`, leaves every other event id's list unchanged, is a
structural no-op when no entry under `E` carries `L`, and afterwards
`has_subscriptions_for(E, L)` is false. -/
theorem unsubscribe_removes_matching (subs : Subscriptions) (E : EventId)
    (L : ListenerId) :
    lookup (unsubscribe subs E L) E
        = (lookup subs E).map (fun ls => ls.filter (fun s => !(s.1 == L)))
    ∧ (∀ F, F ≠ E → lookup (unsubscribe subs E L) F = lookup subs F)
    ∧ has_subscriptions_for (unsubscribe subs E L) E L = false
    ∧ ((∀ p ∈ subs, p.1 = E → ∀ s ∈ p.2, s.1 ≠ L) → unsubscribe subs E L = subs) := by
  refine ⟨lookup_unsubscribe_self subs E L, fun F hF => lookup_unsubscribe_ne subs E L F hF,
    ?_, unsubscribe_eq_self subs E L⟩
  rw [has_subscriptions_for, lookup_unsubscribe_self]
  cases lookup subs E with
  | none => rfl
  | some ls =>
      show (ls.filter (fun s => !(s.1 == L))).any (fun s => s.1 == L) = false
      rw [List.any_eq_false]
      intro s hs
      have := List.of_mem_filter hs
      simpa using this

/-- Claim C5, witness: removing listener "a" under event 1 keeps "b" under
event 1 and everything under event 2, leaves `has_subscriptions_for` false,
and removing an absent listener id leaves the registry intact. -/
theorem unsubscribe_removes_matching_witness :
    lookup (unsubscribe [(1, [("a", 10), ("b", 20)]), (2, [("a", 30)])] 1 "a") 1
        = some [("b", 20)]
    ∧ lookup (unsubscribe [(1, [("a", 10), ("b", 20)]), (2, [("a", 30)])] 1 "a") 2
        = some [("a", 30)]
    ∧ has_subscriptions_for
        (unsubscribe [(1, [("a", 10), ("b", 20)]), (2, [("a", 30)])] 1 "a") 1 "a" = false
    ∧ unsubscribe [(2, [("b", 7)])] 5 "z" = [(2, [("b", 7)])] := by
  have h := unsubscribe_removes_matching [(1, [("a", 10), ("b", 20)]), (2, [("a", 30)])] 1 "a"
  have h2 := unsubscribe_removes_matching [(2, [("b", 7)])] 5 "z"
  refine ⟨h.1.trans (by decide), (h.2.1 2 (by decide)).trans (by decide), h.2.2.1,
    h2.2.2.2 (by decide)⟩

/-- Claim C8: `_has_subscriptions(E)` is true exactly when the registry has
an entry for `E` holding a non-empty list; and when every listener currently
under `E` carries id `L`, `unsubscribe(E, L)` leaves an empty entry for `E`
in the map while both `_has_subscriptions(E)` and
`has_subscriptions_for(E, L)` turn false. -/
theorem has_subscriptions_nonempty (subs : Subscriptions) (E : EventId)
    (L : ListenerId) (ls : List Subscription) :
    (has_subscriptions subs E = true ↔ ∃ v, lookup subs E = some v ∧ v ≠ [])
    ∧ (lookup subs E = some ls → (∀ s ∈ ls, s.1 = L) →
        lookup (unsubscribe subs E L) E = some []
        ∧ has_subscriptions (unsubscribe subs E L) E = false
        ∧ has_subscriptions_for (unsubscribe subs E L) E L = false) := by
  constructor
  · rw [has_subscriptions]
    cases h : lookup subs E with
    | none => simp
    | some v =>
        simp only [Option.elim]
        constructor
        · intro hv
          exact ⟨v, rfl, by simpa using hv⟩
        · rintro ⟨w, hw, hne⟩
          cases hw
          simpa using hne
  · intro hlk hall
    have hempty : lookup (unsubscribe subs E L) E = some [] := by
      rw [lookup_unsubscribe_self, hlk]
      show some (ls.filter (fun s => !(s.1 == L))) = some []
      congr 1
      rw [List.filter_eq_nil_iff]
      intro s hs
      simp [hall s hs]
    refine ⟨hempty, ?_, ?_⟩
    · rw [has_subscriptions, hempty]
      rfl
    · rw [has_subscriptions_for, hempty]
      rfl

/-- Claim C8, witness: a registry whose only listener for event 3 is "x";
after `unsubscribe(3, "x")` the entry for 3 is still present but empty, and
both queries answer false; the iff evaluated on the same registry. -/
theorem has_subscriptions_nonempty_witness :
    (has_subscriptions [(3, [("x", 9)])] 3 = true
      ↔ ∃ v, lookup [(3, [("x", 9)])] 3 = some v ∧ v ≠ [])
    ∧ lookup (unsubscribe [(3, [("x", 9)])] 3 "x") 3 = some []
    ∧ has_subscriptions (unsubscribe [(3, [("x", 9)])] 3 "x") 3 = false
    ∧ has_subscriptions_for (unsubscribe [(3, [("x", 9)])] 3 "x") 3 "x" = false := by
  have h := has_subscriptions_nonempty [(3, [("x", 9)])] 3 "x" [("x", 9)]
  have h2 := h.2 rfl (by decide)
  exact ⟨h.1, h2.1, h2.2.1, h2.2.2⟩

/-- Claim C6, counterexample: it is not true that every schema record
carrying a numeric id is retrievable via `get_event` by that id — when two
records carry the same id, `load_protocol`'s insert lets the later record
overwrite the earlier one, so the earlier record with id 5 is no longer
retrievable. -/
theorem get_event_not_every_record :
    ¬ (∀ (protocol : List ProtocolEvent), ∀ e ∈ protocol, ∀ i, e.id = some i →
        (ProtocolManager.new protocol).get_event i = some e) := by
  intro h
  have hmem : (⟨some 5, EventName.Unknown, none, [("hp", ProtocolVarType.Short)]⟩ :
      ProtocolEvent) ∈
      [(⟨some 5, EventName.Unknown, none, [("hp", ProtocolVarType.Short)]⟩ : ProtocolEvent),
        ⟨some 5, EventName.Unknown, none, []⟩] := List.mem_cons_self _ _
  have := h [⟨some 5, EventName.Unknown, none, [("hp", ProtocolVarType.Short)]⟩,
      ⟨some 5, EventName.Unknown, none, []⟩]
    ⟨some 5, EventName.Unknown, none, [("hp", ProtocolVarType.Short)]⟩ hmem 5 rfl
  exact absurd this (by decide)

/-- Claim C6, amended: the id-indexed map is indexed exactly by the numeric
ids occurring among the records (records with an absent id are excluded and
absent ids look up to None, never an error), and each id retrieves the last
record in the list carrying it — so whenever an id occurs in exactly one
record, that record is retrievable via `get_event` by it. -/
theorem get_event_last_wins (protocol : List ProtocolEvent) (i : EventId) :
    (ProtocolManager.new protocol).get_event i
      = protocol.reverse.find? (fun e => e.id == some i) :=
  get_event_eq_find protocol i

/-- Claim C7: catalog construction is deterministic in its id-indexed map —
building the catalog twice from one schema record list yields equal
id-indexed maps, and all id lookups agree. -/
theorem catalog_build_deterministic (protocol : List ProtocolEvent) :
    (ProtocolManager.new protocol).event_by_id
        = (ProtocolManager.new protocol).event_by_id
    ∧ ∀ i, (ProtocolManager.new protocol).get_event i
        = (ProtocolManager.new protocol).get_event i :=
  ⟨rfl, fun _ => rfl⟩

/-- Claim C9: after construction every event id stored as a value in the
class-name-indexed map is a key of the id-indexed map, so
`get_event_by_class` succeeds exactly when the class name is present and
its internal id lookup never fails. -/
theorem class_values_are_id_keys (protocol : List ProtocolEvent) :
    (∀ c id, lookup (ProtocolManager.new protocol).event_by_class c = some id →
        ((ProtocolManager.new protocol).get_event id).isSome = true)
    ∧ (∀ c, ((ProtocolManager.new protocol).get_event_by_class c).isSome
        = (lookup (ProtocolManager.new protocol).event_by_class c).isSome) := by
  have hkey : ∀ c id, lookup (ProtocolManager.new protocol).event_by_class c = some id →
      ((ProtocolManager.new protocol).get_event id).isSome = true := by
    intro c id h
    have hsrc := lookup_classfold (load_protocol protocol) [] c id h
    rcases hsrc with ⟨p, hp, hp1⟩ | habs
    · have : (p.1, p.2) ∈ load_protocol protocol := by simpa using hp
      rw [hp1] at this
      exact lookup_isSome_of_mem (load_protocol protocol) id p.2 this
    · simp [lookup] at habs
  refine ⟨hkey, fun c => ?_⟩
  rw [ProtocolManager.get_event_by_class]
  cases h : lookup (ProtocolManager.new protocol).event_by_class c with
  | none => rfl
  | some id =>
      have := hkey c id h
      simpa using this

/-- Claim C9, witness: a one-record catalog; its class map sends the
fallback class name to id 5, and both lookups succeed. -/
theorem class_values_are_id_keys_witness :
    ((ProtocolManager.new [⟨some 5, EventName.Unknown, none, []⟩]).get_event 5).isSome = true
    ∧ ((ProtocolManager.new
          [⟨some 5, EventName.Unknown, none, []⟩]).get_event_by_class
            EventName.Unknown).isSome
      = (lookup (ProtocolManager.new
          [⟨some 5, EventName.Unknown, none, []⟩]).event_by_class
            EventName.Unknown).isSome := by
  have h := class_values_are_id_keys [⟨some 5, EventName.Unknown, none, []⟩]
  exact ⟨h.1 EventName.Unknown 5 (by decide), h.2 EventName.Unknown⟩

/-- Claim C10: the `EventName` enum has exactly one inhabitant (the Unknown
fallback), every schema record's class name equals it, and consequently the
class-name-indexed map of any constructed catalog holds at most one entry. -/
theorem eventname_single_inhabitant (protocol : List ProtocolEvent)
    (e : ProtocolEvent) :
    (∀ x : EventName, x = EventName.Unknown)
    ∧ e.name = EventName.Unknown
    ∧ (ProtocolManager.new protocol).event_by_class.length ≤ 1 := by
  refine ⟨fun x => by cases x; rfl, by cases he : e.name; rfl, ?_⟩
  exact classfold_length_le_one (load_protocol protocol) [] (by simp)

end DForge
